import Mathlib

/-!
Verification of the fibo-mcp search-and-rank layer.

Python strings are modelled as lists of characters (`Str`), Python ordered
dicts as ordered association lists, machine floats as rationals, and
fallible code as `Except`.  Pure functions of the source are translated
one-to-one; the external graph-query engine is an explicit parameter
(`evalQ`), and the BM25 scoring statistic of the `rank_bm25` dependency is
an explicit parameter (`gs`) except for the constructor arithmetic that
decides claim C4, which is modelled from the library source.
-/

namespace FiboMCP

/-- Python `str` as a character sequence. -/
abbrev Str := List Char

/-- Lift a Lean string literal to the `Str` model. -/
def str (s : String) : Str := s.toList

/-- The apostrophe character, written by code point. -/
def apos : Char := Char.ofNat 39

/-- Python `str.lower` (ASCII model, matching `Char.toLower`). -/
def pyLower (s : Str) : Str := s.map Char.toLower

/-- Python whitespace for `str.split` / `str.strip` (ASCII model). -/
def isPySpace (c : Char) : Bool :=
  c = ' ' || c = '\t' || c = '\n' || c = '\r' || c = Char.ofNat 11 || c = Char.ofNat 12

/-- Fuel-indexed worker for `pySplitWs`; fuel bounds the recursion depth. -/
def splitWsAux : Nat → Str → List Str
  | 0, _ => []
  | _ + 1, [] => []
  | fuel + 1, c :: rest =>
    if isPySpace c then splitWsAux fuel rest
    else (c :: rest.takeWhile (fun d => !isPySpace d)) ::
      splitWsAux fuel (rest.dropWhile (fun d => !isPySpace d))

/-- Python `str.split()` with no separator: split on whitespace runs,
discarding empty pieces. -/
def pySplitWs (s : Str) : List Str := splitWsAux s.length s

/-- Python `str.split(sep)` for a one-character separator: keeps empty
pieces, `"".split(",") == [""]`. -/
def pySplitChar (sep : Char) : Str → List Str
  | [] => [[]]
  | c :: rest =>
    if c = sep then [] :: pySplitChar sep rest
    else
      match pySplitChar sep rest with
      | w :: ws => (c :: w) :: ws
      | [] => [[c]]

/-- Python `str.strip()`: drop leading and trailing whitespace. -/
def pyStrip (s : Str) : Str :=
  ((s.dropWhile isPySpace).reverse.dropWhile isPySpace).reverse

/-- src/fibo.py lines 11-18: the ordered namespace table.  Python dicts
preserve insertion order, so an ordered association list is faithful. -/
def PREFIXES : List (Str × Str) :=
  [ (str "http://www.w3.org/1999/02/22-rdf-syntax-ns#", str "rdf:"),
    (str "http://www.w3.org/2000/01/rdf-schema#", str "rdfs:"),
    (str "http://www.w3.org/2002/07/owl#", str "owl:"),
    (str "http://www.w3.org/2004/02/skos/core#", str "skos:"),
    (str "https://www.omg.org/spec/Commons/AnnotationVocabulary/", str "cmns-av:"),
    (str "https://spec.edmcouncil.org/fibo/ontology/", str "fibo:") ]

/-- src/fibo.py lines 21-25: `_compact_uri` — first namespace (in
registration order) that the uri starts with wins; otherwise unchanged. -/
def _compact_uri (uri : Str) : Str :=
  match PREFIXES.find? (fun p => p.1.isPrefixOf uri) with
  | some p => p.2 ++ uri.drop p.1.length
  | none => uri

/-- src/fibo.py lines 89-95: `_expand_uri` — special-cased `fibo:` first,
then the prefix tokens in registration order; otherwise unchanged. -/
def _expand_uri (uri : Str) : Str :=
  if (str "fibo:").isPrefixOf uri then
    str "https://spec.edmcouncil.org/fibo/ontology/" ++ uri.drop 5
  else
    match PREFIXES.find? (fun p => p.2.isPrefixOf uri) with
    | some p => p.1 ++ uri.drop p.2.length
    | none => uri

/-- src/fibo.py lines 28-29: `_compact_result` compacts every value of a
result row, keys untouched. -/
def _compact_result (row : List (Str × Str)) : List (Str × Str) :=
  row.map (fun kv => (kv.1, _compact_uri kv.2))

/-- One row of the class/label/definition scan of src/fibo.py lines 42-48:
`?c a owl:Class . ?c rdfs:label ?label . OPTIONAL skos:definition ?def`.
The optional definition is `none` when unbound (and an empty literal is
modelled as `some []`, which line 53 treats identically to `none`). -/
structure ClassRow where
  c : Str
  label : Str
  defn : Option Str
deriving DecidableEq

/-- An indexed document as stored in `_docs_data` (src/fibo.py line 54). -/
structure Doc where
  uri : Str
  label : Str
  definition : Str
deriving DecidableEq, Inhabited

/-- One entry of the list returned by `fuzzy_search` (src/fibo.py 78-86). -/
structure Suggestion where
  uri : Str
  label : Str
  score : ℚ
deriving DecidableEq

/-- The pieces of `rank_bm25.BM25Okapi` state that its constructor computes
before any scoring happens.  Scores themselves stay abstract. -/
structure BM25Okapi where
  corpus_size : ℕ
  doc_len : List ℕ
  avgdl : ℚ
deriving DecidableEq

/-- Modelled from the `rank_bm25` library source (the external dependency
imported at src/fibo.py line 39): `BM25.__init__` runs `_initialize`, which
counts `corpus_size` over the documents and then evaluates
`self.avgdl = num_doc / self.corpus_size` — a Python division that raises
`ZeroDivisionError` when the corpus is empty.  Floats are modelled as ℚ. -/
def bm25okapi_init (corpus : List (List Str)) : Except Str BM25Okapi :=
  let corpus_size := corpus.length
  let doc_len := corpus.map List.length
  let num_doc := doc_len.sum
  if corpus_size = 0 then Except.error (str "ZeroDivisionError: division by zero")
  else Except.ok { corpus_size := corpus_size, doc_len := doc_len,
                   avgdl := (num_doc : ℚ) / (corpus_size : ℚ) }

/-- Python truthiness on the optional definition literal
(src/fibo.py line 53: `str(r["def"]) if r["def"] else ""`). -/
def defnText : Option Str → Str
  | none => []
  | some s => s

/-- src/fibo.py lines 36-57: `_get_bm25` builds `_docs_data` and the
tokenized corpus (`f"{label} {defn}".lower().split()`) in one scan, then
constructs the BM25 statistic over the corpus.  The graph scan result is
the `scan` argument; the construction is fallible (see `bm25okapi_init`). -/
def _get_bm25 (scan : List ClassRow) : Except Str (BM25Okapi × List Doc) :=
  let docs := scan.map (fun r =>
    { uri := r.c, label := r.label, definition := defnText r.defn : Doc })
  let corpus := scan.map (fun r =>
    pySplitWs (pyLower (r.label ++ str " " ++ defnText r.defn)))
  match bm25okapi_init corpus with
  | Except.error e => Except.error e
  | Except.ok b => Except.ok (b, docs)

/-- `scores[i]` — in the source every access is in range, so the default
value is never read where the theorems use it. -/
def scoreAt (scores : List ℚ) (i : ℕ) : ℚ := scores.getD i 0

/-- `docs[i]`, same convention as `scoreAt`. -/
def docAt (docs : List Doc) (i : ℕ) : Doc := docs.getD i default

/-- Python `round(x, 2)` modelled on ℚ: round `100·x` to the nearest
integer and divide back.  (CPython rounds float ties to even; on the
rational model the tie rule is immaterial to every claim.) -/
def round2 (q : ℚ) : ℚ := ((round (q * 100) : ℤ) : ℚ) / 100

/-- The total order used by `sorted(range(len(scores)), key=lambda i:
scores[i], reverse=True)` (src/fibo.py line 77): descending score, and —
because Python's sort is stable over `range(n)` — ties in original index
order. -/
def sortR (scores : List ℚ) (i j : ℕ) : Prop :=
  scoreAt scores j < scoreAt scores i ∨
    (scoreAt scores i = scoreAt scores j ∧ i ≤ j)

instance (scores : List ℚ) : DecidableRel (sortR scores) := fun _ _ =>
  inferInstanceAs (Decidable (_ ∨ _))

/-- src/fibo.py line 77: the stable descending index sort.  A stable sort
by descending key over distinct indices produces the unique permutation
sorted by the linear order `sortR`, which insertion sort computes. -/
def sortIdx (scores : List ℚ) : List ℕ :=
  List.insertionSort (sortR scores) (List.range scores.length)

/-- Strict version of `sortR` on distinct indices: descending score with
ties broken by original scan order. -/
def descLT (scores : List ℚ) (i j : ℕ) : Prop :=
  scoreAt scores j < scoreAt scores i ∨
    (scoreAt scores i = scoreAt scores j ∧ i < j)

/-- src/fibo.py lines 77-86: the indices the list comprehension keeps —
the `top_k` window of the sorted order, minus non-positive scores. -/
def selIdx (scores : List ℚ) (top_k : ℕ) : List ℕ :=
  ((sortIdx scores).take top_k).filter (fun i => decide (0 < scoreAt scores i))

/-- src/fibo.py lines 79-83: the `{uri, label, score}` entry built for a
selected index. -/
def fmtDoc (docs : List Doc) (scores : List ℚ) (i : ℕ) : Suggestion :=
  { uri := _compact_uri (docAt docs i).uri,
    label := (docAt docs i).label,
    score := round2 (scoreAt scores i) }

/-- src/fibo.py lines 74-86: `fuzzy_search` after the BM25 scores are in
hand (`scores = bm25.get_scores(term.lower().split())` is the caller's
job, see `fuzzy_search_run`). -/
def fuzzy_search (docs : List Doc) (scores : List ℚ) (top_k : ℕ) :
    List Suggestion :=
  (selIdx scores top_k).map (fmtDoc docs scores)

/-- The token sequence `fuzzy_search` hands to `bm25.get_scores`
(src/fibo.py line 76): `term.lower().split()` — the term itself, with no
synonym processing anywhere on the path from `search` (line 135-137). -/
def searchScoredTokens (term : Str) : List Str := pySplitWs (pyLower term)

/-- src/fibo.py lines 74-76 with the lazy index build made explicit:
run `_get_bm25` and score the term's own tokens.  `gs` abstracts the
deterministic `BM25Okapi.get_scores` of the external library. -/
def fuzzy_search_run (gs : BM25Okapi → List Str → List ℚ)
    (scan : List ClassRow) (term : Str) (top_k : ℕ) :
    Except Str (List Suggestion) :=
  match _get_bm25 scan with
  | Except.error e => Except.error e
  | Except.ok (b, docs) =>
      Except.ok (fuzzy_search docs (gs b (searchScoredTokens term)) top_k)

/-- Case-insensitive literal piece of a pattern (`re.IGNORECASE`, ASCII). -/
def litCIAux : List Char → Str → Option Str
  | [], s => some s
  | _ :: _, [] => none
  | c :: cs, d :: ds => if c.toLower = d.toLower then litCIAux cs ds else none

/-- Match a literal word of the regex case-insensitively, returning the rest. -/
def litCI (lit : String) (s : Str) : Option Str := litCIAux lit.toList s

/-- `\s*`: greedy whitespace skip.  In every pattern of the source the next
piece is a non-whitespace literal, so the greedy skip is exact. -/
def skipWs (s : Str) : Str := s.dropWhile isPySpace

/-- A single mandatory character of a pattern. -/
def chrTok (c : Char) : Str → Option Str
  | d :: rest => if d = c then some rest else none
  | [] => none

/-- The character class `["\']`. -/
def isQuoteCh (c : Char) : Bool := c = '"' || c = apos

/-- Match one quote character (`["\']`). -/
def quoteTok : Str → Option Str
  | d :: rest => if isQuoteCh d then some rest else none
  | [] => none

/-- `\w` (ASCII model of the regex word class). -/
def isWordCh (c : Char) : Bool := c.isAlpha || c.isDigit || c = '_'

/-- `\w+`: one or more word characters, maximal munch.  The next piece of
every pattern is `\s*` followed by a non-word literal, so no shorter match
could succeed and maximal munch is exact. -/
def wordPlus (s : Str) : Option Str :=
  if (s.takeWhile isWordCh).isEmpty then none else some (s.dropWhile isWordCh)

/-- `([^"\']+)`: the captured group — one or more non-quote characters,
maximal munch.  The class excludes the closing quote the pattern demands
next, so no shorter match could succeed and maximal munch is exact. -/
def captureNonQuote (s : Str) : Option (Str × Str) :=
  let cap := s.takeWhile (fun c => !isQuoteCh c)
  if cap.isEmpty then none else some (cap, s.dropWhile (fun c => !isQuoteCh c))

/-- src/fibo.py line 62:
`CONTAINS\s*\(\s*LCASE\s*\(\s*\?\w+\s*\)\s*,\s*["\']([^"\']+)["\']`. -/
def pContainsLcase (s : Str) : Option Str := do
  let s ← litCI "CONTAINS" s
  let s ← chrTok '(' (skipWs s)
  let s ← litCI "LCASE" (skipWs s)
  let s ← chrTok '(' (skipWs s)
  let s ← chrTok '?' (skipWs s)
  let s ← wordPlus s
  let s ← chrTok ')' (skipWs s)
  let s ← chrTok ',' (skipWs s)
  let s ← quoteTok (skipWs s)
  let (cap, s) ← captureNonQuote s
  let _ ← quoteTok s
  pure cap

/-- src/fibo.py line 63: same shape with `STR` in place of `LCASE`. -/
def pContainsStr (s : Str) : Option Str := do
  let s ← litCI "CONTAINS" s
  let s ← chrTok '(' (skipWs s)
  let s ← litCI "STR" (skipWs s)
  let s ← chrTok '(' (skipWs s)
  let s ← chrTok '?' (skipWs s)
  let s ← wordPlus s
  let s ← chrTok ')' (skipWs s)
  let s ← chrTok ',' (skipWs s)
  let s ← quoteTok (skipWs s)
  let (cap, s) ← captureNonQuote s
  let _ ← quoteTok s
  pure cap

/-- src/fibo.py line 64: `CONTAINS\s*\(\s*\?\w+\s*,\s*["\']([^"\']+)["\']`. -/
def pContainsBare (s : Str) : Option Str := do
  let s ← litCI "CONTAINS" s
  let s ← chrTok '(' (skipWs s)
  let s ← chrTok '?' (skipWs s)
  let s ← wordPlus s
  let s ← chrTok ',' (skipWs s)
  let s ← quoteTok (skipWs s)
  let (cap, s) ← captureNonQuote s
  let _ ← quoteTok s
  pure cap

/-- src/fibo.py line 65: `=\s*["\']([^"\']+)["\']`. -/
def pEquals (s : Str) : Option Str := do
  let s ← chrTok '=' s
  let s ← quoteTok (skipWs s)
  let (cap, s) ← captureNonQuote s
  let _ ← quoteTok s
  pure cap

/-- `re.search`: try the pattern at every start position from the left;
the first position where it matches wins. -/
def reSearch (m : Str → Option Str) : Str → Option Str
  | [] => m []
  | c :: rest =>
    match m (c :: rest) with
    | some cap => some cap
    | none => reSearch m rest

/-- src/fibo.py lines 61-66: the fixed, ordered pattern list. -/
def extractPatterns : List (Str → Option Str) :=
  [pContainsLcase, pContainsStr, pContainsBare, pEquals]

/-- src/fibo.py lines 67-71: try each pattern in order, return the first
capture lowercased. -/
def extractGo : List (Str → Option Str) → Str → Option Str
  | [], _ => none
  | p :: ps, q =>
    match reSearch p q with
    | some cap => some (pyLower cap)
    | none => extractGo ps q

/-- src/fibo.py lines 60-71: `_extract_search_term`.  Total by
construction: it never raises, it yields `none` when no pattern matches. -/
def _extract_search_term (q : Str) : Option Str := extractGo extractPatterns q

/-- The payload of src/fibo.py lines 135-137: `{"results": ..., "count": ...}`. -/
structure SearchPayload where
  results : List Suggestion
  count : ℕ
deriving DecidableEq

/-- src/fibo.py lines 135-137: `search` calls `fuzzy_search(term, top_k=10)`
with no try/except, so a failure of the index build propagates. -/
def search_run (gs : BM25Okapi → List Str → List ℚ)
    (scan : List ClassRow) (term : Str) : Except Str SearchPayload :=
  match fuzzy_search_run gs scan term 10 with
  | Except.error e => Except.error e
  | Except.ok rs => Except.ok { results := rs, count := rs.length }

/-- A raw result row from the graph-query engine: each query variable with
its optional binding (src/fibo.py line 111-113 reads `row[var]`, which is
`None` for an unbound variable). -/
abbrev RawRow := List (Str × Option Str)

/-- src/fibo.py lines 110-115: keep only the bound variables of a row. -/
def projectRow (r : RawRow) : List (Str × Str) :=
  r.filterMap (fun kv => kv.2.map (fun v => (kv.1, v)))

/-- src/fibo.py lines 108-116: one output row — bound variables only, then
`_compact_result`. -/
def rowOut (r : RawRow) : List (Str × Str) := _compact_result (projectRow r)

/-- The encoded dictionary `sparql` returns. A field is `none` exactly when
the corresponding key is absent from the Python dict. -/
structure SparqlPayload where
  results : Option (List (List (Str × Str)))
  count : Option ℕ
  suggestions : Option (List Suggestion)
  error : Option Str
deriving DecidableEq

/-- src/fibo.py line 132: `encode({"error": str(e)})` — the only key is
`error`. -/
def errorPayload (e : Str) : SparqlPayload :=
  { results := none, count := none, suggestions := none, error := some e }

/-- The module-level singletons `_bm25_index` / `_docs_data`
(src/fibo.py lines 32-33), threaded explicitly. -/
structure ServerState where
  bm25 : Option (BM25Okapi × List Doc)
deriving DecidableEq

/-- src/fibo.py lines 36-57 as a state transition: reuse the memoized index
when present, otherwise build it; a failed build leaves `_bm25_index`
unassigned (still `None`). -/
def getBM25 (scan : List ClassRow) (st : ServerState) :
    Except Str ((BM25Okapi × List Doc) × ServerState) :=
  match st.bm25 with
  | some b => Except.ok (b, st)
  | none =>
    match _get_bm25 scan with
    | Except.error e => Except.error e
    | Except.ok b => Except.ok (b, { bm25 := some b })

/-- src/fibo.py lines 98-132: the `sparql` operation.  `scan` is the fixed
class/label scan of the read-only graph, `gs` the deterministic
`get_scores` of the built index, and `evalQ` the graph-query engine as a
fixed function of the query text (the graph is never mutated while
serving).  The whole body sits in one `try`, so an engine failure or an
index-build failure becomes the error payload; `if term:` attaches
suggestions exactly when the extracted term is non-`None` and non-empty. -/
def sparqlSt (scan : List ClassRow) (gs : BM25Okapi → List Str → List ℚ)
    (evalQ : Str → Except Str (List RawRow)) (st : ServerState) (q : Str) :
    SparqlPayload × ServerState :=
  match evalQ q with
  | Except.error e => (errorPayload e, st)
  | Except.ok rows =>
    let output := rows.map rowOut
    match _extract_search_term q with
    | none =>
      ({ results := some output, count := some output.length,
         suggestions := none, error := none }, st)
    | some t =>
      if t = [] then
        ({ results := some output, count := some output.length,
           suggestions := none, error := none }, st)
      else
        match getBM25 scan st with
        | Except.error e => (errorPayload e, st)
        | Except.ok ((b, docs), st') =>
          ({ results := some output, count := some output.length,
             suggestions :=
               some (fuzzy_search docs (gs b (searchScoredTokens t)) 10),
             error := none }, st')

/-- The memoized index, when present, is the one built from the current
graph scan — the data-model invariant of spec §3 (documents and statistics
are never rebuilt independently). -/
def StateWF (scan : List ClassRow) (st : ServerState) : Prop :=
  st.bm25 = none ∨ ∃ b, _get_bm25 scan = Except.ok b ∧ st.bm25 = some b

/-- src/constants.py line 4, declared for a bounded LRU cache of SPARQL
queries; nothing in the repository reads it and `sparql` is uncached. -/
def SPARQL_CACHE_SIZE : ℕ := 1000

/-- src/main.py lines 198-204: the static synonym-expansion table of
`explore_concept` (an ordered Python dict). -/
def expansions : List (Str × Str) :=
  [ (str "country", str "country,jurisdiction,government,polity,sovereign,nation"),
    (str "company", str "company,organization,corporation,entity,firm"),
    (str "person", str "person,individual,party,agent"),
    (str "bank", str "bank,institution,depositary,financial"),
    (str "money", str "money,currency,monetary,funds") ]

/-- src/main.py line 206: `expansions.get(concept.lower(), concept)` —
case-insensitive exact key lookup; on a hit the term is REPLACED by the
mapping's value, otherwise passed through. -/
def explore_concept_search_term (concept : Str) : Str :=
  match expansions.find? (fun kv => kv.1 = pyLower concept) with
  | some kv => kv.2
  | none => concept

/-- Formalises the words of claim C5 / spec §4.4 (NOT the source): "the
key's synonym string is appended to the term before tokenizing", so the
scored token sequence would be the widened term. -/
def claimWidenedTokens (term : Str) : List Str :=
  match expansions.find? (fun kv => kv.1 = pyLower term) with
  | some kv => pySplitWs (pyLower (term ++ str " " ++ kv.2))
  | none => pySplitWs (pyLower term)

/-- src/main.py lines 105, 210: `[t.strip() for t in s.split(",") if t.strip()]`. -/
def splitTerms (s : Str) : List Str :=
  ((pySplitChar ',' s).map pyStrip).filter (fun t => !t.isEmpty)

/-- src/main.py line 108: `CONTAINS(LCASE(STR(?label)), LCASE("{term}"))`. -/
def containsClause (t : Str) : Str :=
  str "CONTAINS(LCASE(STR(?label)), LCASE(\"" ++ t ++ str "\"))"

/-- src/main.py lines 104-112: the filter-clause construction of
`search_by_label`.  The single-term branch evaluates `terms[0]`
unconditionally, which raises `IndexError` when the comma-split leaves no
non-empty term; list indexing is therefore modelled in `Except`. -/
def search_by_label_filter (search_term : Str) : Except Str Str :=
  let terms := splitTerms search_term
  if 1 < terms.length then
    Except.ok (str "FILTER(" ++
      List.intercalate (str " || ") (terms.map containsClause) ++ str ")")
  else
    match terms.head? with
    | none => Except.error (str "IndexError: list index out of range")
    | some t => Except.ok (str "FILTER(" ++ containsClause t ++ str ")")

/-- src/main.py line 102: `lim = min(max(limit, 1), 100)`. -/
def search_by_label_lim (limit : ℤ) : ℤ := min (max limit 1) 100

/-- src/main.py line 293: `lim = min(max(limit, 1), 100)`. -/
def list_classes_lim (limit : ℤ) : ℤ := min (max limit 1) 100

/-- src/main.py line 313: `lim = min(max(limit, 1), 200)`. -/
def get_entity_details_lim (limit : ℤ) : ℤ := min (max limit 1) 200

/-- src/main.py line 326: `lim = min(max(limit, 1), 200)`. -/
def find_by_type_lim (limit : ℤ) : ℤ := min (max limit 1) 200

/-- src/main.py line 342: `lim = min(max(limit, 1), 200)`. -/
def explore_hierarchy_lim (limit : ℤ) : ℤ := min (max limit 1) 200

/-- src/main.py line 360: `lim = min(max(limit, 1), 200)`. -/
def explore_neighbors_lim (limit : ℤ) : ℤ := min (max limit 1) 200

/-- src/main.py line 383: `md = min(max(max_depth, 1), 3)`. -/
def find_path_md (max_depth : ℤ) : ℤ := min (max max_depth 1) 3

/-- src/main.py line 384: `lim = min(max(limit, 1), 100)`. -/
def find_path_lim (limit : ℤ) : ℤ := min (max limit 1) 100

/-- Concrete one-document graph scan used to evaluate theorems. -/
def cScan : List ClassRow :=
  [{ c := str "https://spec.edmcouncil.org/fibo/ontology/FND/Currency",
     label := str "currency", defn := none }]

/-- Concrete score oracle used to evaluate theorems. -/
def cGs : BM25Okapi → List Str → List ℚ := fun _ _ => [1]

/-- Concrete BM25 state: what `bm25okapi_init` builds over `cScan` (one
document of one token; `avgdl` written as the builder's division so the
equality is definitional — ℚ arithmetic is not kernel-reducible here). -/
def cB : BM25Okapi :=
  { corpus_size := 1, doc_len := [1], avgdl := ((1 : ℕ) : ℚ) / ((1 : ℕ) : ℚ) }

/-- Concrete document list built over `cScan`. -/
def cDocs : List Doc :=
  [{ uri := str "https://spec.edmcouncil.org/fibo/ontology/FND/Currency",
     label := str "currency", definition := [] }]

/-- Concrete graph-query engine returning one single-binding row. -/
def cEvalQ : Str → Except Str (List RawRow) :=
  fun _ => Except.ok [[(str "label", some (str "Euro"))]]

/-- Concrete structured query with an extractable filter term. -/
def cQuery : Str := str "FILTER(CONTAINS(LCASE(?label), \"currency\"))"

/-- Decidable equality on `Except`, so witnesses can be checked by `decide`. -/
def exceptDecEq {ε α : Type} [DecidableEq ε] [DecidableEq α] :
    DecidableEq (Except ε α) := fun a b =>
  match a, b with
  | Except.error x, Except.error y =>
    if h : x = y then isTrue (h ▸ rfl)
    else isFalse (fun hc => h (Except.error.inj hc))
  | Except.ok x, Except.ok y =>
    if h : x = y then isTrue (h ▸ rfl)
    else isFalse (fun hc => h (Except.ok.inj hc))
  | Except.error _, Except.ok _ => isFalse (fun hc => Except.noConfusion hc)
  | Except.ok _, Except.error _ => isFalse (fun hc => Except.noConfusion hc)

instance {ε α : Type} [DecidableEq ε] [DecidableEq α] :
    DecidableEq (Except ε α) := exceptDecEq

/-! ### Helper lemmas -/

theorem isPrefixOf_append_self (a rest : Str) : a.isPrefixOf (a ++ rest) = true := by
  induction a with
  | nil => simp [List.isPrefixOf]
  | cons c cs ih => simp [List.isPrefixOf, ih]

theorem isPrefixOf_append_eq_false {a b : Str} (rest : Str)
    (h1 : a.isPrefixOf b = false) (h2 : b.isPrefixOf a = false) :
    a.isPrefixOf (b ++ rest) = false := by
  induction a generalizing b with
  | nil => simp [List.isPrefixOf] at h1
  | cons c cs ih =>
    cases b with
    | nil => simp [List.isPrefixOf] at h2
    | cons d ds =>
      simp only [List.cons_append, List.isPrefixOf, Bool.and_eq_false_iff] at h1 h2 ⊢
      rcases h1 with h1 | h1
      · exact Or.inl h1
      · rcases h2 with h2 | h2
        · left
          cases hcd : c == d
          · rfl
          · have hc : c = d := eq_of_beq hcd
            subst hc
            simp at h2
        · exact Or.inr (ih h1 h2)

theorem find?_first {α} (pre : List α) (x : α) (post : List α) (p : α → Bool)
    (hpre : ∀ y ∈ pre, p y = false) (hx : p x = true) :
    (pre ++ x :: post).find? p = some x := by
  induction pre with
  | nil => exact List.find?_cons_of_pos _ hx
  | cons a l ih =>
    rw [List.cons_append,
      List.find?_cons_of_neg _ (by simp [hpre a (by simp)])]
    exact ih (fun y hy => hpre y (by simp [hy]))

theorem round2_mono {a b : ℚ} (h : a ≤ b) : round2 a ≤ round2 b := by
  unfold round2
  have h1 : round (a * 100) ≤ round (b * 100) := by
    rw [round_eq, round_eq]
    exact Int.floor_le_floor (by linarith)
  exact (div_le_div_iff_of_pos_right (by norm_num)).mpr (by exact_mod_cast h1)

theorem sortR_total (scores : List ℚ) :
    ∀ i j, sortR scores i j ∨ sortR scores j i := by
  intro i j
  rcases lt_trichotomy (scoreAt scores i) (scoreAt scores j) with h | h | h
  · right; exact Or.inl h
  · rcases le_total i j with hij | hij
    · exact Or.inl (Or.inr ⟨h, hij⟩)
    · exact Or.inr (Or.inr ⟨h.symm, hij⟩)
  · exact Or.inl (Or.inl h)

theorem sortR_trans (scores : List ℚ) :
    ∀ i j k, sortR scores i j → sortR scores j k → sortR scores i k := by
  intro i j k h1 h2
  rcases h1 with h1 | ⟨e1, l1⟩ <;> rcases h2 with h2 | ⟨e2, l2⟩
  · exact Or.inl (lt_trans h2 h1)
  · exact Or.inl (by rwa [← e2])
  · exact Or.inl (by rwa [e1])
  · exact Or.inr ⟨e1.trans e2, le_trans l1 l2⟩

theorem sortIdx_sorted (scores : List ℚ) :
    (sortIdx scores).Sorted (sortR scores) := by
  haveI : IsTotal ℕ (sortR scores) := ⟨sortR_total scores⟩
  haveI : IsTrans ℕ (sortR scores) := ⟨sortR_trans scores⟩
  exact List.sorted_insertionSort _ _

theorem sortIdx_perm (scores : List ℚ) :
    (sortIdx scores).Perm (List.range scores.length) :=
  List.perm_insertionSort _ _

theorem sortIdx_pairwise (scores : List ℚ) :
    (sortIdx scores).Pairwise (descLT scores) := by
  have h1 : (sortIdx scores).Pairwise (sortR scores) := sortIdx_sorted scores
  have h2 : (sortIdx scores).Pairwise (fun a b => a ≠ b) :=
    (sortIdx_perm scores).symm.nodup (List.nodup_range _)
  refine (h1.and h2).imp ?_
  rintro a b ⟨hr | ⟨he, hle⟩, hne⟩
  · exact Or.inl hr
  · exact Or.inr ⟨he, lt_of_le_of_ne hle hne⟩

theorem selIdx_sublist (scores : List ℚ) (k : ℕ) :
    List.Sublist (selIdx scores k) (sortIdx scores) :=
  (List.filter_sublist _).trans (List.take_sublist _ _)

theorem selIdx_pairwise (scores : List ℚ) (k : ℕ) :
    (selIdx scores k).Pairwise (descLT scores) :=
  (sortIdx_pairwise scores).sublist (selIdx_sublist scores k)

theorem selIdx_length (scores : List ℚ) (k : ℕ) :
    (selIdx scores k).length ≤ k :=
  le_trans (List.length_filter_le _ _)
    (by simp [List.length_take])

theorem selIdx_mem (scores : List ℚ) (k : ℕ) :
    ∀ i ∈ selIdx scores k, i < scores.length ∧ 0 < scoreAt scores i := by
  intro i hi
  obtain ⟨hmem, hpos⟩ := List.mem_filter.mp hi
  refine ⟨?_, of_decide_eq_true hpos⟩
  have h1 : i ∈ sortIdx scores :=
    (List.take_sublist _ _).subset hmem
  exact List.mem_range.mp ((sortIdx_perm scores).mem_iff.mp h1)

theorem compact_append (pre : List (Str × Str)) (p : Str × Str)
    (post : List (Str × Str)) (rest : Str)
    (hsplit : PREFIXES = pre ++ p :: post)
    (hpre : ∀ q ∈ pre, q.1.isPrefixOf (p.1 ++ rest) = false) :
    _compact_uri (p.1 ++ rest) = p.2 ++ rest := by
  unfold _compact_uri
  rw [hsplit, find?_first pre p post _ hpre (isPrefixOf_append_self _ _)]
  show p.2 ++ List.drop p.1.length (p.1 ++ rest) = p.2 ++ rest
  rw [List.drop_left]

theorem expand_append (pre : List (Str × Str)) (p : Str × Str)
    (post : List (Str × Str)) (rest : Str)
    (hsplit : PREFIXES = pre ++ p :: post)
    (hfibo : (str "fibo:").isPrefixOf (p.2 ++ rest) = false)
    (hpre : ∀ q ∈ pre, q.2.isPrefixOf (p.2 ++ rest) = false) :
    _expand_uri (p.2 ++ rest) = p.1 ++ rest := by
  unfold _expand_uri
  rw [if_neg (by simp [hfibo]), hsplit,
    find?_first pre p post _ hpre (isPrefixOf_append_self _ _)]
  show p.1 ++ List.drop p.2.length (p.2 ++ rest) = p.1 ++ rest
  rw [List.drop_left]

theorem expand_fibo (rest : Str) :
    _expand_uri (str "fibo:" ++ rest) =
      str "https://spec.edmcouncil.org/fibo/ontology/" ++ rest := by
  unfold _expand_uri
  rw [if_pos (isPrefixOf_append_self _ _)]
  rfl

theorem getBM25_fix {scan : List ClassRow} {st st' : ServerState}
    {b : BM25Okapi × List Doc} (h : getBM25 scan st = Except.ok (b, st')) :
    getBM25 scan st' = Except.ok (b, st') := by
  unfold getBM25 at h ⊢
  cases hst : st.bm25 with
  | some b0 =>
    rw [hst] at h
    simp only [Except.ok.injEq, Prod.mk.injEq] at h
    obtain ⟨rfl, rfl⟩ := h
    rw [hst]
  | none =>
    rw [hst] at h
    cases hg : _get_bm25 scan with
    | error e => rw [hg] at h; cases h
    | ok v =>
      rw [hg] at h
      simp only [Except.ok.injEq, Prod.mk.injEq] at h
      obtain ⟨rfl, rfl⟩ := h
      rfl

/-! ### The claims -/

/-- C1: for every corpus and score vector (one score per document, as
`BM25Okapi.get_scores` guarantees) and every `top_k`, `fuzzy_search`
returns at most `top_k` entries; they are the image of a selected index
list that is ordered by strictly descending score with ties broken by
original scan order (`descLT`), every selected document scores strictly
positive (a document with score ≤ 0 never appears, so the result may be
shorter than `top_k`), each entry is `{uri, label, score}` with the uri
prefix-compacted and the score rounded to two decimals (`fmtDoc`), and the
rounded scores of the result are non-increasing. -/
theorem fuzzy_search_spec (docs : List Doc) (scores : List ℚ) (top_k : ℕ)
    (h : scores.length = docs.length) :
    ∃ idxs : List ℕ,
      fuzzy_search docs scores top_k = idxs.map (fmtDoc docs scores) ∧
      idxs.length ≤ top_k ∧
      idxs.Pairwise (descLT scores) ∧
      (∀ i ∈ idxs, i < docs.length ∧ 0 < scoreAt scores i) ∧
      (fuzzy_search docs scores top_k).length ≤ top_k ∧
      (fuzzy_search docs scores top_k).Pairwise
        (fun a b => Suggestion.score b ≤ Suggestion.score a) := by
  refine ⟨selIdx scores top_k, rfl, selIdx_length _ _, selIdx_pairwise _ _,
    ?_, ?_, ?_⟩
  · intro i hi
    obtain ⟨h1, h2⟩ := selIdx_mem scores top_k i hi
    exact ⟨h ▸ h1, h2⟩
  · simpa [fuzzy_search] using selIdx_length scores top_k
  · refine List.Pairwise.map _ ?_ (selIdx_pairwise scores top_k)
    intro i j hij
    rcases hij with hlt | ⟨heq, _⟩
    · simpa [fmtDoc] using round2_mono hlt.le
    · simp [fmtDoc, heq]

/-- Witness for C1 at a concrete one-document index. -/
theorem fuzzy_search_spec_witness :
    ∃ idxs : List ℕ,
      fuzzy_search cDocs [1] 1 = idxs.map (fmtDoc cDocs [1]) ∧
      idxs.length ≤ 1 ∧
      idxs.Pairwise (descLT [1]) ∧
      (∀ i ∈ idxs, i < cDocs.length ∧ 0 < scoreAt [1] i) ∧
      (fuzzy_search cDocs [1] 1).length ≤ 1 ∧
      (fuzzy_search cDocs [1] 1).Pairwise
        (fun a b => Suggestion.score b ≤ Suggestion.score a) :=
  fuzzy_search_spec cDocs [1] 1 rfl

/-- C6 (amended): for every URI that starts with a registered namespace,
expanding the compaction returns it unchanged; compaction checks the
namespaces in registration order and the first match wins; a value
matching no registered namespace passes through COMPACTION unchanged, and
a value additionally starting with no registered prefix token (nor with
`fibo:`) passes through EXPANSION unchanged.  (The unamended claim's
"passes through both functions" fails: see the counterexample.) -/
theorem prefix_table_spec :
    (∀ p ∈ PREFIXES, ∀ rest : Str,
        _expand_uri (_compact_uri (p.1 ++ rest)) = p.1 ++ rest) ∧
    (∀ (u : Str) pre p post, PREFIXES = pre ++ p :: post →
        (∀ q ∈ pre, q.1.isPrefixOf u = false) → p.1.isPrefixOf u = true →
        _compact_uri u = p.2 ++ u.drop p.1.length) ∧
    (∀ u : Str, (∀ p ∈ PREFIXES, p.1.isPrefixOf u = false) →
        _compact_uri u = u) ∧
    (∀ u : Str, (str "fibo:").isPrefixOf u = false →
        (∀ p ∈ PREFIXES, p.2.isPrefixOf u = false) → _expand_uri u = u) := by
  refine ⟨?_, ?_, ?_, ?_⟩
  · intro p hp rest
    fin_cases hp
    · rw [compact_append [] _ _ rest rfl (by intro q hq; simp at hq)]
      exact expand_append [] _ _ rest rfl
        (isPrefixOf_append_eq_false rest (by decide) (by decide))
        (by intro q hq; simp at hq)
    · rw [compact_append
        [(str "http://www.w3.org/1999/02/22-rdf-syntax-ns#", str "rdf:")]
        _ _ rest rfl
        (by intro q hq; fin_cases hq <;>
          exact isPrefixOf_append_eq_false rest (by decide) (by decide))]
      exact expand_append
        [(str "http://www.w3.org/1999/02/22-rdf-syntax-ns#", str "rdf:")]
        _ _ rest rfl
        (isPrefixOf_append_eq_false rest (by decide) (by decide))
        (by intro q hq; fin_cases hq <;>
          exact isPrefixOf_append_eq_false rest (by decide) (by decide))
    · rw [compact_append
        [(str "http://www.w3.org/1999/02/22-rdf-syntax-ns#", str "rdf:"),
         (str "http://www.w3.org/2000/01/rdf-schema#", str "rdfs:")]
        _ _ rest rfl
        (by intro q hq; fin_cases hq <;>
          exact isPrefixOf_append_eq_false rest (by decide) (by decide))]
      exact expand_append
        [(str "http://www.w3.org/1999/02/22-rdf-syntax-ns#", str "rdf:"),
         (str "http://www.w3.org/2000/01/rdf-schema#", str "rdfs:")]
        _ _ rest rfl
        (isPrefixOf_append_eq_false rest (by decide) (by decide))
        (by intro q hq; fin_cases hq <;>
          exact isPrefixOf_append_eq_false rest (by decide) (by decide))
    · rw [compact_append
        [(str "http://www.w3.org/1999/02/22-rdf-syntax-ns#", str "rdf:"),
         (str "http://www.w3.org/2000/01/rdf-schema#", str "rdfs:"),
         (str "http://www.w3.org/2002/07/owl#", str "owl:")]
        _ _ rest rfl
        (by intro q hq; fin_cases hq <;>
          exact isPrefixOf_append_eq_false rest (by decide) (by decide))]
      exact expand_append
        [(str "http://www.w3.org/1999/02/22-rdf-syntax-ns#", str "rdf:"),
         (str "http://www.w3.org/2000/01/rdf-schema#", str "rdfs:"),
         (str "http://www.w3.org/2002/07/owl#", str "owl:")]
        _ _ rest rfl
        (isPrefixOf_append_eq_false rest (by decide) (by decide))
        (by intro q hq; fin_cases hq <;>
          exact isPrefixOf_append_eq_false rest (by decide) (by decide))
    · rw [compact_append
        [(str "http://www.w3.org/1999/02/22-rdf-syntax-ns#", str "rdf:"),
         (str "http://www.w3.org/2000/01/rdf-schema#", str "rdfs:"),
         (str "http://www.w3.org/2002/07/owl#", str "owl:"),
         (str "http://www.w3.org/2004/02/skos/core#", str "skos:")]
        _ _ rest rfl
        (by intro q hq; fin_cases hq <;>
          exact isPrefixOf_append_eq_false rest (by decide) (by decide))]
      exact expand_append
        [(str "http://www.w3.org/1999/02/22-rdf-syntax-ns#", str "rdf:"),
         (str "http://www.w3.org/2000/01/rdf-schema#", str "rdfs:"),
         (str "http://www.w3.org/2002/07/owl#", str "owl:"),
         (str "http://www.w3.org/2004/02/skos/core#", str "skos:")]
        _ _ rest rfl
        (isPrefixOf_append_eq_false rest (by decide) (by decide))
        (by intro q hq; fin_cases hq <;>
          exact isPrefixOf_append_eq_false rest (by decide) (by decide))
    · rw [compact_append
        [(str "http://www.w3.org/1999/02/22-rdf-syntax-ns#", str "rdf:"),
         (str "http://www.w3.org/2000/01/rdf-schema#", str "rdfs:"),
         (str "http://www.w3.org/2002/07/owl#", str "owl:"),
         (str "http://www.w3.org/2004/02/skos/core#", str "skos:"),
         (str "https://www.omg.org/spec/Commons/AnnotationVocabulary/", str "cmns-av:")]
        _ _ rest rfl
        (by intro q hq; fin_cases hq <;>
          exact isPrefixOf_append_eq_false rest (by decide) (by decide))]
      exact expand_fibo rest
  · intro u pre p post hsplit hpre hp
    unfold _compact_uri
    rw [hsplit, find?_first pre p post _ hpre hp]
  · intro u h
    unfold _compact_uri
    rw [List.find?_eq_none.mpr (fun x hx => by simp [h x hx])]
  · intro u hf h
    unfold _expand_uri
    rw [if_neg (by simp [hf]),
      List.find?_eq_none.mpr (fun x hx => by simp [h x hx])]

/-- C6 counterexample: `"rdf:type"` starts with no registered namespace
string, yet expansion rewrites it to the full rdf namespace — so "a value
matching no registered namespace passes through both functions unchanged"
is false as stated (it holds for compaction only). -/
theorem prefix_passthrough_counterexample :
    (∀ p ∈ PREFIXES, p.1.isPrefixOf (str "rdf:type") = false) ∧
    _compact_uri (str "rdf:type") = str "rdf:type" ∧
    _expand_uri (str "rdf:type") ≠ str "rdf:type" := by decide

/-- Witness for C6 at the rdfs namespace and local name `label`. -/
theorem prefix_table_spec_witness :
    _expand_uri (_compact_uri
        (str "http://www.w3.org/2000/01/rdf-schema#" ++ str "label")) =
      str "http://www.w3.org/2000/01/rdf-schema#" ++ str "label" :=
  prefix_table_spec.1
    (str "http://www.w3.org/2000/01/rdf-schema#", str "rdfs:")
    (by decide) (str "label")

/-- C3: when the graph-query engine fails with message `e` (non-empty, as
every real engine exception carries text), `sparql` returns the payload
whose only key is `error` — no `results`, no `count`, no `suggestions` —
and, being a total function of the outcome, never propagates the
exception. -/
theorem sparql_error_payload (scan : List ClassRow)
    (gs : BM25Okapi → List Str → List ℚ)
    (evalQ : Str → Except Str (List RawRow)) (st : ServerState) (q e : Str)
    (h1 : evalQ q = Except.error e) (h2 : e ≠ []) :
    (sparqlSt scan gs evalQ st q).1.error = some e ∧
    (∃ m, (sparqlSt scan gs evalQ st q).1.error = some m ∧ m ≠ []) ∧
    (sparqlSt scan gs evalQ st q).1.results = none ∧
    (sparqlSt scan gs evalQ st q).1.count = none ∧
    (sparqlSt scan gs evalQ st q).1.suggestions = none := by
  refine ⟨?_, ⟨e, ?_, h2⟩, ?_, ?_, ?_⟩ <;> simp [sparqlSt, h1, errorPayload]

/-- Witness for C3 at a concrete failing engine outcome. -/
theorem sparql_error_payload_witness :
    (sparqlSt cScan cGs (fun _ => Except.error (str "Expected SelectQuery, found end of text"))
        { bm25 := none } (str "INVALID SPARQL SYNTAX")).1.error
      = some (str "Expected SelectQuery, found end of text") ∧
    (∃ m, (sparqlSt cScan cGs (fun _ => Except.error (str "Expected SelectQuery, found end of text"))
        { bm25 := none } (str "INVALID SPARQL SYNTAX")).1.error = some m ∧ m ≠ []) ∧
    (sparqlSt cScan cGs (fun _ => Except.error (str "Expected SelectQuery, found end of text"))
        { bm25 := none } (str "INVALID SPARQL SYNTAX")).1.results = none ∧
    (sparqlSt cScan cGs (fun _ => Except.error (str "Expected SelectQuery, found end of text"))
        { bm25 := none } (str "INVALID SPARQL SYNTAX")).1.count = none ∧
    (sparqlSt cScan cGs (fun _ => Except.error (str "Expected SelectQuery, found end of text"))
        { bm25 := none } (str "INVALID SPARQL SYNTAX")).1.suggestions = none :=
  sparql_error_payload cScan cGs _ _ _ _ rfl (by decide)

/-- C4: the claim demands that an empty corpus still yield a working index
returning zero results; the code instead passes the empty corpus to
`BM25Okapi`, whose constructor divides `num_doc / corpus_size` and raises
`ZeroDivisionError`, so the index is not constructable at all — the lazy
build inside `fuzzy_search` fails for every term and every `top_k`. -/
theorem bm25_empty_corpus_raises :
    bm25okapi_init [] = Except.error (str "ZeroDivisionError: division by zero") ∧
    (∀ gs term top_k,
      fuzzy_search_run gs [] term top_k =
        Except.error (str "ZeroDivisionError: division by zero")) :=
  ⟨rfl, fun _ _ _ => rfl⟩

/-- C8: `search_by_label` evaluates `terms[0]` after the comma-split even
when no non-empty term remains, raising `IndexError` for the inputs `","`
and `""`; and `search` (src/fibo.py line 135) wraps `fuzzy_search` in no
try/except, so an index-build failure (empty corpus) propagates instead of
producing a payload. -/
theorem tool_unhandled_faults :
    search_by_label_filter (str ",") =
      Except.error (str "IndexError: list index out of range") ∧
    search_by_label_filter (str "") =
      Except.error (str "IndexError: list index out of range") ∧
    (∀ gs term, search_run gs [] term =
      Except.error (str "ZeroDivisionError: division by zero")) :=
  ⟨rfl, rfl, fun _ _ => rfl⟩

/-- C9: with the read-only graph fixed (the engine `evalQ` and the scan are
fixed functions of the query text, per the no-mutation premise), running
`sparql` twice in succession returns the identical payload — in particular
identical `results` and `count` — and reaching the same memoized-index
state, so a recent-query cache keyed on exact query text (the declared but
unused `SPARQL_CACHE_SIZE` bound) could not change the observed payload. -/
theorem sparql_idempotent (scan : List ClassRow)
    (gs : BM25Okapi → List Str → List ℚ)
    (evalQ : Str → Except Str (List RawRow)) (st : ServerState) (q : Str) :
    sparqlSt scan gs evalQ (sparqlSt scan gs evalQ st q).2 q =
      sparqlSt scan gs evalQ st q := by
  cases hq : evalQ q with
  | error e => simp [sparqlSt, hq]
  | ok rows =>
    cases ht : _extract_search_term q with
    | none => simp [sparqlSt, hq, ht]
    | some t =>
      by_cases htn : t = []
      · simp [sparqlSt, hq, ht, htn]
      · cases hb : getBM25 scan st with
        | error e => simp [sparqlSt, hq, ht, htn, hb]
        | ok v =>
          obtain ⟨b, st'⟩ := v
          simp [sparqlSt, hq, ht, htn, hb, getBM25_fix hb]

theorem extractGo_spec (ps : List (Str → Option Str)) (q : Str) :
    (extractGo ps q = none ∧ ∀ m ∈ ps, reSearch m q = none) ∨
    (∃ pre m post cap, ps = pre ++ m :: post ∧
      (∀ m' ∈ pre, reSearch m' q = none) ∧
      reSearch m q = some cap ∧
      extractGo ps q = some (pyLower cap)) := by
  induction ps with
  | nil => exact Or.inl ⟨rfl, by simp⟩
  | cons p ps ih =>
    cases h : reSearch p q with
    | some cap =>
      exact Or.inr ⟨[], p, ps, cap, rfl, by simp, h, by simp [extractGo, h]⟩
    | none =>
      rcases ih with ⟨h1, h2⟩ | ⟨pre, m, post, cap, hsplit, hpre, hm, hout⟩
      · refine Or.inl ⟨by simp [extractGo, h, h1], ?_⟩
        intro m hm
        rcases List.mem_cons.mp hm with rfl | hm
        · exact h
        · exact h2 m hm
      · refine Or.inr ⟨p :: pre, m, post, cap, by rw [hsplit]; rfl, ?_, hm,
          by simp [extractGo, h, hout]⟩
        intro m' hm'
        rcases List.mem_cons.mp hm' with rfl | hm'
        · exact h
        · exact hpre m' hm'

theorem reSearch_some {m : Str → Option Str} {q cap : Str}
    (h : reSearch m q = some cap) : ∃ s, m s = some cap := by
  induction q with
  | nil => exact ⟨[], h⟩
  | cons c rest ih =>
    unfold reSearch at h
    cases hm : m (c :: rest) with
    | some cap2 => rw [hm] at h; exact ⟨c :: rest, by rw [hm]; exact h⟩
    | none => rw [hm] at h; exact ih h

theorem captureNonQuote_some {s cap rest : Str}
    (h : captureNonQuote s = some (cap, rest)) : cap ≠ [] := by
  unfold captureNonQuote at h
  by_cases he : (s.takeWhile (fun c => !isQuoteCh c)).isEmpty
  · simp [he] at h
  · simp only [he, if_false, Bool.false_eq_true, Option.some.injEq,
      Prod.mk.injEq] at h
    obtain ⟨h1, _⟩ := h
    rw [← h1]
    exact fun hnil => he (by simp [hnil])

theorem pattern_cap_ne_nil :
    ∀ p ∈ extractPatterns, ∀ s cap, p s = some cap → cap ≠ [] := by
  intro p hp
  fin_cases hp <;> intro s cap h
  · unfold pContainsLcase at h
    simp only [bind, Option.bind_eq_some, Option.pure_def,
      Option.some.injEq] at h
    obtain ⟨s1, _, s2, _, s3, _, s4, _, s5, _, s6, _, s7, _, s8, _, s9, _,
      c1, hc, rest⟩ := h
    obtain ⟨x, hx, hcap⟩ := rest
    obtain ⟨c_, s_⟩ := c1
    rw [← hcap]
    exact captureNonQuote_some hc
  · unfold pContainsStr at h
    simp only [bind, Option.bind_eq_some, Option.pure_def,
      Option.some.injEq] at h
    obtain ⟨s1, _, s2, _, s3, _, s4, _, s5, _, s6, _, s7, _, s8, _, s9, _,
      c1, hc, rest⟩ := h
    obtain ⟨x, hx, hcap⟩ := rest
    obtain ⟨c_, s_⟩ := c1
    rw [← hcap]
    exact captureNonQuote_some hc
  · unfold pContainsBare at h
    simp only [bind, Option.bind_eq_some, Option.pure_def,
      Option.some.injEq] at h
    obtain ⟨s1, _, s2, _, s3, _, s4, _, s5, _, s6, _,
      c1, hc, rest⟩ := h
    obtain ⟨x, hx, hcap⟩ := rest
    obtain ⟨c_, s_⟩ := c1
    rw [← hcap]
    exact captureNonQuote_some hc
  · unfold pEquals at h
    simp only [bind, Option.bind_eq_some, Option.pure_def,
      Option.some.injEq] at h
    obtain ⟨s1, _, s2, _, c1, hc, rest⟩ := h
    obtain ⟨x, hx, hcap⟩ := rest
    obtain ⟨c_, s_⟩ := c1
    rw [← hcap]
    exact captureNonQuote_some hc

theorem extract_some_ne_nil {q t : Str}
    (h : _extract_search_term q = some t) : t ≠ [] := by
  unfold _extract_search_term at h
  rcases extractGo_spec extractPatterns q with ⟨h1, _⟩ |
    ⟨pre, m, post, cap, hsplit, _, hm, hout⟩
  · rw [h] at h1; cases h1
  · have hmem : m ∈ extractPatterns := by rw [hsplit]; simp
    obtain ⟨s, hs⟩ := reSearch_some hm
    have hcap : cap ≠ [] := pattern_cap_ne_nil m hmem s cap hs
    rw [h] at hout
    obtain rfl : t = pyLower cap := by injection hout
    simp only [pyLower, ne_eq, List.map_eq_nil_iff]
    exact hcap

/-- C7: for every input query string, `_extract_search_term` either
returns `none` with no pattern of the fixed ordered list matching
anywhere, or returns exactly the capture of the FIRST matching pattern
(patterns before it match nowhere in the string), lowercased.  The model
matches case-insensitively (`litCI`) and is total, so no input can make
the extractor raise. -/
theorem extract_search_term_spec (q : Str) :
    (_extract_search_term q = none ∧ ∀ m ∈ extractPatterns, reSearch m q = none) ∨
    (∃ pre m post cap, extractPatterns = pre ++ m :: post ∧
      (∀ m' ∈ pre, reSearch m' q = none) ∧
      reSearch m q = some cap ∧
      _extract_search_term q = some (pyLower cap)) :=
  extractGo_spec extractPatterns q

/-- C2: whenever the term extractor recovers `t` from the query (recovered
terms are never empty, so the `if term:` truthiness check passes), a
successful `sparql` call attaches `suggestions` equal exactly to the
standalone lexical scoring of `t` with `top_k = 10`
(`fuzzy_search_run ... t 10`, computed independently over the same graph
scan), and it does so for every result-row list — including a non-empty
one — leaving `results` and `count` intact.  `StateWF` says the memoized
index, if any, was built from the current scan (spec §3 invariant). -/
theorem sparql_suggestions_consistent (scan : List ClassRow)
    (gs : BM25Okapi → List Str → List ℚ)
    (evalQ : Str → Except Str (List RawRow)) (st : ServerState)
    (q t : Str) (rows : List RawRow) (s : List Suggestion)
    (hq : evalQ q = Except.ok rows)
    (ht : _extract_search_term q = some t)
    (hst : StateWF scan st)
    (hs : fuzzy_search_run gs scan t 10 = Except.ok s) :
    (sparqlSt scan gs evalQ st q).1.suggestions = some s ∧
    (sparqlSt scan gs evalQ st q).1.results = some (rows.map rowOut) ∧
    (sparqlSt scan gs evalQ st q).1.count = some (rows.map rowOut).length := by
  have htn : t ≠ [] := extract_some_ne_nil ht
  unfold fuzzy_search_run at hs
  cases hg : _get_bm25 scan with
  | error e => rw [hg] at hs; cases hs
  | ok bd =>
    obtain ⟨b, docs⟩ := bd
    rw [hg] at hs
    have hsv : s = fuzzy_search docs (gs b (searchScoredTokens t)) 10 := by
      injection hs with hs
      exact hs.symm
    rcases hst with hnone | ⟨b', hb', hsome⟩
    · have hget : getBM25 scan st =
          Except.ok ((b, docs), { bm25 := some (b, docs) }) := by
        unfold getBM25
        rw [hnone, hg]
      simp [sparqlSt, hq, ht, htn, hget, hsv]
    · have hb2 : b' = (b, docs) := by
        rw [hg] at hb'
        injection hb' with hb'
        exact hb'.symm
      have hget : getBM25 scan st = Except.ok ((b, docs), st) := by
        unfold getBM25
        rw [hsome, hb2]
      simp [sparqlSt, hq, ht, htn, hget, hsv]

/-- Witness for C2 at a concrete scan, engine and query. -/
theorem sparql_suggestions_consistent_witness :
    (sparqlSt cScan cGs cEvalQ { bm25 := none } cQuery).1.suggestions =
      some (fuzzy_search cDocs (cGs cB (searchScoredTokens (str "currency"))) 10) ∧
    (sparqlSt cScan cGs cEvalQ { bm25 := none } cQuery).1.results =
      some ([[(str "label", some (str "Euro"))]].map rowOut) ∧
    (sparqlSt cScan cGs cEvalQ { bm25 := none } cQuery).1.count =
      some ([[(str "label", some (str "Euro"))]].map rowOut).length :=
  sparql_suggestions_consistent cScan cGs cEvalQ { bm25 := none } cQuery
    (str "currency") [[(str "label", some (str "Euro"))]]
    (fuzzy_search cDocs (cGs cB (searchScoredTokens (str "currency"))) 10)
    rfl (by decide) (Or.inl rfl) rfl

/-- C5 (amended): the standalone fuzzy-search operation applies NO synonym
widening — the token sequence it scores is exactly the lowercased
whitespace-split of the submitted term itself (`searchScoredTokens`), for
every term including keys of the synonym mapping.  The static mapping
lives only in the server's `explore_concept` tool, where a concept whose
lowercase form equals a key is REPLACED by (not appended to) the mapping's
comma-separated value — whose first comma-separated entry is the key
itself — and that value feeds the structured label-filter query, not the
lexical scorer. -/
theorem synonym_handling_spec :
    (∀ gs scan (term : Str) top_k b docs,
        _get_bm25 scan = Except.ok (b, docs) →
        fuzzy_search_run gs scan term top_k =
          Except.ok (fuzzy_search docs (gs b (searchScoredTokens term)) top_k)) ∧
    (∀ concept kv,
        expansions.find? (fun e => e.1 = pyLower concept) = some kv →
        explore_concept_search_term concept = kv.2 ∧
        (splitTerms kv.2).head? = some kv.1 ∧
        kv.1 = pyLower concept) := by
  constructor
  · intro gs scan term top_k b docs hg
    unfold fuzzy_search_run
    rw [hg]
  · intro concept kv h
    have hmem : kv ∈ expansions := List.mem_of_find?_eq_some h
    have hpred := List.find?_some h
    refine ⟨?_, ?_, of_decide_eq_true hpred⟩
    · unfold explore_concept_search_term
      rw [h]
    · fin_cases hmem <;> decide

/-- C5 counterexample: `"country"` is a key of the synonym mapping, yet
the standalone fuzzy search scores the token sequence `["country"]` — the
original term alone — and not the widened sequence the claim describes,
which differs. -/
theorem synonym_widening_counterexample :
    (expansions.find? (fun e => e.1 = pyLower (str "country"))).isSome = true ∧
    searchScoredTokens (str "country") = [str "country"] ∧
    claimWidenedTokens (str "country") ≠ searchScoredTokens (str "country") := by
  decide

/-- Witness for C5 at the key `country` (submitted as `Country`). -/
theorem synonym_handling_spec_witness :
    fuzzy_search_run cGs cScan (str "country") 3 =
      Except.ok (fuzzy_search cDocs (cGs cB (searchScoredTokens (str "country"))) 3) ∧
    (explore_concept_search_term (str "Country") =
        (str "country", str "country,jurisdiction,government,polity,sovereign,nation").2 ∧
      (splitTerms (str "country", str "country,jurisdiction,government,polity,sovereign,nation").2).head? =
        some (str "country", str "country,jurisdiction,government,polity,sovereign,nation").1 ∧
      (str "country", str "country,jurisdiction,government,polity,sovereign,nation").1 =
        pyLower (str "Country")) :=
  ⟨synonym_handling_spec.1 cGs cScan (str "country") 3 cB cDocs rfl,
   synonym_handling_spec.2 (str "Country")
     (str "country", str "country,jurisdiction,government,polity,sovereign,nation")
     (by decide)⟩

/-- C10: every caller-supplied integer limit is clamped into the tool's
fixed positive range before the query is built — `[1, 100]` for
`search_by_label`, `list_classes` and `find_path`'s row limit, `[1, 200]`
for `get_entity_details`, `find_by_type`, `explore_hierarchy` and
`explore_neighbors`, and `[1, 3]` for `find_path`'s depth — so zero,
negative or huge values can produce neither a non-positive nor an
unbounded LIMIT. -/
theorem limit_clamps (l : ℤ) :
    (1 ≤ search_by_label_lim l ∧ search_by_label_lim l ≤ 100) ∧
    (1 ≤ list_classes_lim l ∧ list_classes_lim l ≤ 100) ∧
    (1 ≤ get_entity_details_lim l ∧ get_entity_details_lim l ≤ 200) ∧
    (1 ≤ find_by_type_lim l ∧ find_by_type_lim l ≤ 200) ∧
    (1 ≤ explore_hierarchy_lim l ∧ explore_hierarchy_lim l ≤ 200) ∧
    (1 ≤ explore_neighbors_lim l ∧ explore_neighbors_lim l ≤ 200) ∧
    (1 ≤ find_path_md l ∧ find_path_md l ≤ 3) ∧
    (1 ≤ find_path_lim l ∧ find_path_lim l ≤ 100) := by
  unfold search_by_label_lim list_classes_lim get_entity_details_lim
    find_by_type_lim explore_hierarchy_lim explore_neighbors_lim
    find_path_md find_path_lim
  omega

end FiboMCP
